import Mathlib

/-!
Shallow embedding of the numerical signal-processing core of strfpy_jax.py:
cochlear filtering in frequency-response and direct recursive form, the
wav2aud_j auditory-spectrogram pipeline, the compression stage, the inverse
cochlear filter, and the cortical rate/scale filter bank aud2cor_j.
Machine floats are modelled by exact reals and complex numbers, jnp arrays by
lists or index functions, and Python exceptions by Except String.
-/

noncomputable section

open scoped BigOperators

/-- Discrete Fourier transform of an N-point sequence, as computed by
jnp.fft.fft: X[k] = sum over n of x[n] * exp(-2 pi i k n / N). -/
def dftN (N : ℕ) (x : ℕ → ℂ) (k : ℕ) : ℂ :=
  ∑ n ∈ Finset.range N, x n * Complex.exp (-(2 * (Real.pi : ℂ) * Complex.I) * k * n / N)

/-- Inverse discrete Fourier transform, as computed by jnp.fft.ifft:
x[t] = (sum over k of X[k] * exp(2 pi i k t / N)) / N. -/
def idftN (N : ℕ) (X : ℕ → ℂ) (t : ℕ) : ℂ :=
  (∑ k ∈ Finset.range N, X k * Complex.exp ((2 * (Real.pi : ℂ) * Complex.I) * k * t / N)) / N

/-- Bin k of jnp.fft.fftfreq(n): the first ceil(n/2) entries are 0,1,.../n and
the remaining entries are the negative frequencies (k-n)/n. -/
def fftfreq (n : ℕ) (k : ℕ) : ℝ :=
  ((if k < (n + 1) / 2 then (k : ℤ) else (k : ℤ) - (n : ℤ) : ℤ) : ℝ) / (n : ℝ)

/-- The quantity e_jw of cochlear_filter_fft and inverse_cochlear_filter:
with freqs = fftfreq(n)*2*pi, e_jw = cos(freqs) - i*sin(freqs). -/
def e_jw (n : ℕ) (k : ℕ) : ℂ :=
  ((Real.cos (fftfreq n k * (2 * Real.pi)) : ℝ) : ℂ) -
    Complex.I * ((Real.sin (fftfreq n k * (2 * Real.pi)) : ℝ) : ℂ)

/-- Transfer function H evaluated at DFT bin k for an n-point signal, exactly
as built in cochlear_filter_fft (lines 85-88 of strfpy_jax.py):
H = (sum over i < 25 of b[i]*e_jw^i) / (sum over i < 25 of a[i]*e_jw^i). -/
def cochlearH (b a : List ℂ) (n : ℕ) (k : ℕ) : ℂ :=
  (∑ i ∈ Finset.range 25, b.getD i 0 * (e_jw n k) ^ i) /
    (∑ i ∈ Finset.range 25, a.getD i 0 * (e_jw n k) ^ i)

/-- Embedding of cochlear_filter_fft: assert len(b) == len(a) == 25, build the
transfer function H at the DFT bins of len(x), and return ifft(H * fft(x)).
A failed Python assert is modelled as Except.error. -/
def cochlear_filter_fft (b a x : List ℂ) : Except String (List ℂ) :=
  if b.length ≠ 25 then Except.error ("AssertionError")
  else if a.length ≠ 25 then Except.error ("AssertionError")
  else
    let H : ℕ → ℂ := fun k => cochlearH b a x.length k
    let X : ℕ → ℂ := fun k => dftN x.length (fun j => x.getD j 0) k
    Except.ok ((List.range x.length).map (fun t => idftN x.length (fun k => H k * X k) t))

/-- Entry i of the full linear convolution of x with b, as computed by
jax.scipy.signal.convolve(x, b) (mode full): ar[i] = sum over j of x[j]*b[i-j]. -/
def convFull (x b : List ℂ) (i : ℕ) : ℂ :=
  ∑ j ∈ Finset.range x.length, if j ≤ i then x.getD j 0 * b.getD (i - j) 0 else 0

/-- Embedding of cochlear_filter: assert len(b) == len(a) == 25, compute the
moving-average part ar = convolve(x, b), then run the Python loop
  for i in range(len(x)):
    ma = sum(y[i:i+24] * a1[::-1]) if len(a) > 1 else 0
    y = y.at[i+24].set(ar[i] - ma)
over y initialised to zeros(len(x)+24), where a1 = a[1:], and return y[24:]. -/
def cochlear_filter (b a x : List ℂ) : Except String (List ℂ) :=
  if b.length ≠ 25 then Except.error ("AssertionError")
  else if a.length ≠ 25 then Except.error ("AssertionError")
  else
    let a1 := a.tail
    let ar : ℕ → ℂ := fun i => convFull x b i
    let y0 : List ℂ := List.replicate (x.length + 24) 0
    let y := (List.range x.length).foldl
      (fun y i =>
        let ma : ℂ :=
          if 1 < a.length then
            ∑ j ∈ Finset.range 24, y.getD (i + j) 0 * (a1.reverse).getD j 0
          else 0
        y.set (i + 24) (ar i - ma)) y0
    Except.ok (y.drop 24)

/-- Embedding of leaky_integrator_fft: filter x by b = [1], a = [1, -alpha]
in the fft domain, H = 1 / (1 - alpha*(cos(freqs) - i*sin(freqs))). -/
def leaky_integrator_fft (x : List ℂ) (alpha : ℝ) : List ℂ :=
  let n := x.length
  let X : ℕ → ℂ := fun k => dftN n (fun j => x.getD j 0) k
  let H : ℕ → ℂ := fun k =>
    1 / (1 - (alpha : ℂ) * (((Real.cos (fftfreq n k * (2 * Real.pi)) : ℝ) : ℂ) -
      Complex.I * ((Real.sin (fftfreq n k * (2 * Real.pi)) : ℝ) : ℂ)))
  (List.range n).map (fun t => idftN n (fun k => H k * X k) t)

/-- Exact model of the Python built-in round on a rational: round half to even. -/
def pyround (q : ℚ) : ℤ :=
  if q - ⌊q⌋ < 1 / 2 then ⌊q⌋
  else if 1 / 2 < q - ⌊q⌋ then ⌊q⌋ + 1
  else if ⌊q⌋ % 2 = 0 then ⌊q⌋ else ⌊q⌋ + 1

/-- Frame length in samples, as computed in wav2aud_j line 159:
L_frm = round(frmlen * 2**(4+octave_shift)). -/
def L_frm_of (frmlen : ℚ) (octave_shift : ℤ) : ℤ :=
  pyround (frmlen * (2 : ℚ) ^ (4 + octave_shift))

/-- Number of frames, as computed in wav2aud_j line 160:
N = ceil(len(x) / L_frm). -/
def nFrames (xlen : ℕ) (frmlen : ℚ) (octave_shift : ℤ) : ℤ :=
  ⌈(xlen : ℚ) / ((L_frm_of frmlen octave_shift : ℤ) : ℚ)⌉

/-- The zero-padded waveform of wav2aud_j line 161:
x = jnp.pad(x, (0, N*L_frm - len(x))). -/
def paddedSignal (x : List ℝ) (frmlen : ℚ) (octave_shift : ℤ) : List ℝ :=
  x ++ List.replicate
    ((nFrames x.length frmlen octave_shift * L_frm_of frmlen octave_shift -
      (x.length : ℤ)).toNat) 0

/-- Elementwise maximum of two complex numbers in the numpy/jax sense:
lexicographic comparison, real parts first, then imaginary parts. -/
def cmax (a b : ℂ) : ℂ :=
  if b.re < a.re then a else if a.re < b.re then b else if b.im ≤ a.im then a else b

/-- The first-difference stage of wav2aud_j line 184: v5[:-1,:] - v5[1:,:],
row i of the result is row i minus row i+1 of the input. -/
def lateralDiff (v : List (List ℂ)) : List (List ℂ) :=
  List.zipWith (fun r1 r2 => List.zipWith (fun p q => p - q) r1 r2) v v.tail

/-- The half-wave rectifier stage of wav2aud_j line 188: v5.at[:,:].max(0),
the elementwise maximum of the matrix with 0. -/
def rectify (v : List (List ℂ)) : List (List ℂ) :=
  v.map (fun r => r.map (fun z => cmax z 0))

/-- Embedding of root_norm: norm_constant = sum(x**p)/len(x), then
(x/norm_constant)**(1/p) elementwise. -/
def root_norm (x : List ℂ) (p : ℝ) : List ℂ :=
  let norm_constant := (∑ i ∈ Finset.range x.length, (x.getD i 0) ^ ((p : ℝ) : ℂ)) / (x.length : ℂ)
  x.map (fun z => (z / norm_constant) ^ ((1 : ℂ) / ((p : ℝ) : ℂ)))

/-- Embedding of power_norm: abs(x)**alpha * sign(x), where for complex x the
jax sign is x/abs(x) (and 0 for x = 0, which the total division gives). -/
def power_norm (x : List ℂ) (alpha : ℝ) : List ℂ :=
  x.map (fun z =>
    (((Complex.abs z) ^ alpha : ℝ) : ℂ) * (z / ((Complex.abs z : ℝ) : ℂ)))

/-- Embedding of compression (lines 263-289).  A 1-D input is first wrapped
into a single-row matrix in the source; the matrix case is modelled here.
Each named method transforms row i with per-channel parameter fac[i]; an
unknown method tag raises a bare KeyError, modelled as Except.error. -/
def compression (mag : List (List ℂ)) (fac : List ℝ) (method : String) :
    Except String (List (List ℂ)) :=
  if method = "logistic" then
    Except.ok ((List.range mag.length).map (fun i =>
      (mag.getD i []).map (fun z =>
        1 / (1 + Complex.exp (z / ((fac.getD i 0 : ℝ) : ℂ))))))
  else if method = "root" then
    Except.ok ((List.range mag.length).map (fun i => root_norm (mag.getD i []) (fac.getD i 0)))
  else if method = "power" then
    Except.ok ((List.range mag.length).map (fun i => power_norm (mag.getD i []) (fac.getD i 0)))
  else if method = "identity" then Except.ok mag
  else Except.error ("KeyError")

/-- The per-channel cochlear filtering loop of wav2aud_j (lines 169-178):
for ch in range(len(As)), filter the padded signal with row ch of (Bs, As),
using the fft method or the recursive method according to the flag. -/
def filterStage (As Bs : List (List ℝ)) (fft : Bool) (xp : List ℝ) :
    Except String (List (List ℂ)) :=
  (List.range As.length).mapM (fun ch =>
    let B := (Bs.getD ch []).map (fun r => (r : ℂ))
    let A := (As.getD ch []).map (fun r => (r : ℂ))
    if fft then cochlear_filter_fft B A (xp.map (fun r => (r : ℂ)))
    else cochlear_filter B A (xp.map (fun r => (r : ℂ))))

/-- The leaky-integration loop of wav2aud_j lines 192-195: apply
leaky_integrator_fft to every row. -/
def integrateStage (v : List (List ℂ)) (alpha : ℝ) : List (List ℂ) :=
  v.map (fun r => leaky_integrator_fft r alpha)

/-- The real-part step of wav2aud_j line 196: v5 = v5.real. -/
def realPartMat (v : List (List ℂ)) : List (List ℂ) :=
  v.map (fun r => r.map (fun z => ((z.re : ℝ) : ℂ)))

/-- The default downsampling of wav2aud_j lines 198-199:
inds = arange(1, N+1)*L_frm - 1 and v5 = v5[:, inds].  All indices are in
range for the padded signal, so getD never falls back to its default. -/
def downsampleDefault (v : List (List ℂ)) (L_frm N : ℤ) : List (List ℂ) :=
  v.map (fun r => (List.range N.toNat).map (fun (i : ℕ) =>
    r.getD (((i : ℤ) + 1) * L_frm - 1).toNat 0))

/-- The strided downsampling of wav2aud_j line 201: v5[:, (L_frm-1)::L_frm]. -/
def downsampleStride (v : List (List ℂ)) (L_frm : ℤ) : List (List ℂ) :=
  v.map (fun r => (List.range r.length).filterMap (fun i =>
    if (L_frm - 1).toNat ≤ i ∧ (i - (L_frm - 1).toNat) % L_frm.toNat = 0
    then some (r.getD i 0) else none))

/-- True exactly on the ok constructor of an Except value. -/
def exceptOk {ε α : Type} : Except ε α → Bool
  | Except.ok _ => true
  | Except.error _ => false

/-- Embedding of wav2aud_j (lines 137-206).  The asserts and raises are
modelled as Except.error; an out-of-range return_stage falls off the end of
the Python function and returns None, modelled as Except.ok none.  The stage
order follows the source: assert As.shape == Bs.shape; reject filt_type
other than p; compute L_frm, N and the zero-padded signal (jnp.pad rejects a
negative pad width); run the cochlear filter bank, compression, first
difference, rectification; then either leaky-integrate and downsample
(time_constant nonzero), pass through (time_constant = 0 and L_frm = 1), or
raise NotImplementedError. -/
def wav2aud_j (x : List ℝ) (frmlen : ℚ) (time_constant : ℚ) (fac : List ℝ)
    (octave_shift : ℤ) (As Bs : List (List ℝ)) (filt_type : String)
    (compression_method : String) (fft : Bool) (return_stage : ℕ)
    (downsample : String) : Except String (Option (List (List ℂ))) :=
  if As.map List.length ≠ Bs.map List.length then Except.error ("AssertionError")
  else if filt_type ≠ "p" then Except.error ("NotImplementedError")
  else
    let L_frm : ℤ := L_frm_of frmlen octave_shift
    let N : ℤ := nFrames x.length frmlen octave_shift
    if N * L_frm - (x.length : ℤ) < 0 then Except.error ("ValueError")
    else
      let xp := paddedSignal x frmlen octave_shift
      let alpha : ℝ :=
        if time_constant ≠ 0 then
          Real.exp (-1 / ((time_constant : ℝ) * (2 : ℝ) ^ (4 + octave_shift)))
        else 0
      match filterStage As Bs fft xp with
      | Except.error e => Except.error e
      | Except.ok v1 =>
        if return_stage = 1 then Except.ok (some v1)
        else
          match compression v1 fac compression_method with
          | Except.error e => Except.error e
          | Except.ok v2 =>
            if return_stage = 2 then Except.ok (some v2)
            else
              let v3 := lateralDiff v2
              if return_stage = 3 then Except.ok (some v3)
              else
                let v4 := rectify v3
                if return_stage = 4 then Except.ok (some v4)
                else
                  match
                    (if time_constant ≠ 0 then
                      let vi := realPartMat (integrateStage v4 alpha)
                      Except.ok (if downsample = "default"
                        then downsampleDefault vi L_frm N
                        else downsampleStride vi L_frm)
                    else if L_frm = 1 then Except.ok v4
                    else Except.error ("NotImplementedError") :
                      Except String (List (List ℂ))) with
                  | Except.error e => Except.error e
                  | Except.ok v5 =>
                    if return_stage = 5 then Except.ok (some v5) else Except.ok none

/-- Embedding of inverse_cochlear_filter (lines 292-309): per channel,
rebuild the transfer function H from the coefficient rows of that channel exactly
as in cochlear_filter_fft, divide the channel fft by H, inverse-transform,
then return the real part of the mean across channels. -/
def inverse_cochlear_filter (Bs As : List (List ℝ)) (v : List (List ℂ)) : List ℝ :=
  let T := (v.headD []).length
  let xs : List (List ℂ) := (List.range As.length).map (fun ch =>
    let b := Bs.getD ch []
    let a := As.getD ch []
    let H : ℕ → ℂ := fun k =>
      (∑ i ∈ Finset.range 25, ((b.getD i 0 : ℝ) : ℂ) * (e_jw T k) ^ i) /
        (∑ i ∈ Finset.range 25, ((a.getD i 0 : ℝ) : ℂ) * (e_jw T k) ^ i)
    let V : ℕ → ℂ := fun k => dftN T (fun n => (v.getD ch []).getD n 0) k
    (List.range T).map (fun t => idftN T (fun k => V k / H k) t))
  (List.range T).map (fun t =>
    ((∑ ch ∈ Finset.range xs.length, (xs.getD ch []).getD t 0) / (xs.length : ℂ)).re)

/-- A Python value that is either an integer or a list of integers, as passed
for the KIND argument of gen_corf_j (aud2cor_j passes a two-element list). -/
inductive PyKind
  | int : ℤ → PyKind
  | list : List ℤ → PyKind

/-- The Python comparison KIND == 1: true only for the integer 1 (a list
compared with an integer is always unequal in Python). -/
def kindEqOne : PyKind → Bool
  | PyKind.int n => n == 1
  | PyKind.list _ => false

/-- Embedding of gen_cort_j (lines 376-404), the temporal rate filter.
jnp.linspace(0, L-1, L) is the sequence 0, 1, ..., L-1.  jnp.max(H) is the
maximum of the L nonnegative magnitudes, hence the fold with base 0.
The PASS argument is never read by the source body. -/
def gen_cort_j (fc : ℝ) (L : ℕ) (STF : ℝ) (PASS : List ℤ) : List ℂ :=
  let t : ℕ → ℝ := fun i => (i : ℝ) / STF * fc
  let h : ℕ → ℝ := fun i => Real.sin (2 * Real.pi * t i) * (t i) ^ 2 * Real.exp (-3.5 * t i) * fc
  let hm : ℕ → ℝ := fun i => h i - (∑ j ∈ Finset.range L, h j) / L
  let H0 : ℕ → ℂ := fun k => dftN (2 * L) (fun n => if n < L then ((hm n : ℝ) : ℂ) else 0) k
  let A : ℕ → ℝ := fun k => Complex.arg (H0 k)
  let Hab : ℕ → ℝ := fun k => Complex.abs (H0 k)
  let mx : ℝ := ((List.range L).map Hab).foldr max 0
  (List.range L).map (fun k =>
    ((Hab k / mx : ℝ) : ℂ) * (((Real.sin (A k) : ℝ) : ℂ) + Complex.I * ((Real.cos (A k) : ℝ) : ℂ)))

/-- Embedding of gen_corf_j (lines 408-435), the spectral scale filter:
R1 = (index/L * SRF/2 / abs(fc)), gaussian pair for KIND == 1, otherwise the
gamma envelope R1^2 * exp(1 - R1^2), followed by H / sum(H) * sumH where
sumH was recorded as sum(H) just before. -/
def gen_corf_j (fc : ℝ) (L : ℕ) (SRF : ℝ) (KIND : PyKind) : List ℝ :=
  let R1 : ℕ → ℝ := fun i => (i : ℝ) / (L : ℝ) * SRF / 2 / |fc|
  let C1 : ℝ := 1 / 2 / 0.3 / 0.3
  let H : ℕ → ℝ :=
    if kindEqOne KIND then
      fun i => Real.exp (-C1 * (R1 i - 1) ^ 2) + Real.exp (-C1 * (R1 i + 1) ^ 2)
    else
      fun i => (R1 i) ^ 2 * Real.exp (1 - (R1 i) ^ 2)
  let sumH : ℝ := ∑ i ∈ Finset.range L, H i
  (List.range L).map (fun i => H i / (∑ j ∈ Finset.range L, H j) * sumH)

/-- Embedding of gen_corf_strf (lines 502-509): the raw gamma envelope
R1^2 * exp(1 - R1^2) with R1 = index/L * SRF/2 / abs(fc), no normalization. -/
def gen_corf_strf (fc : ℝ) (L : ℕ) (SRF : ℝ) : List ℝ :=
  (List.range L).map (fun (i : ℕ) =>
    let R1 : ℝ := (i : ℝ) / (L : ℝ) * SRF / 2 / |fc|
    R1 ^ 2 * Real.exp (1 - R1 ^ 2))

/-- A jnp 4-D complex array: its shape and its entries (zero off the shape,
matching the jnp.zeros initialisation of aud2cor_j). -/
structure Tensor4 where
  dims : ℕ × ℕ × ℕ × ℕ
  entry : ℕ → ℕ → ℕ → ℕ → ℂ

/-- Embedding of aud2cor_j (lines 315-374).  The spectrogram y of shape
(N, M) is passed as an index function plus its shape.  paras with five or
more entries raises NotImplementedError; at the line STF = 1000/paras[0],
an empty paras raises IndexError and paras[0] = 0 raises ZeroDivisionError
(Python division of ints/floats from a plain list).
N1 = 2**ceil(log2 N) is Nat.clog 2 N for N >= 1, likewise M1.
The rate filter HR for sgn = 1 is gen_cort_j padded with N1 zeros; for
sgn = -1 it is the conjugate mirror with bin N1 replaced by the magnitude of
bin N1+1.  Within one (rdx, sgn) pass the variable z1 is multiplied by each
successive scale filter HS without being reset, so the slice for sdx carries
the product of HS(0..sdx); this accumulation of the source loop is modelled
by the explicit product below.  Slice (sdx, j) of the output holds the
second inverse fft truncated to M columns, with j < K1 the sgn = -1 filters
and j >= K1 the sgn = +1 filters. -/
def aud2cor_j (y : ℕ → ℕ → ℂ) (N M : ℕ) (paras : List ℝ) (rv sv : List ℝ) :
    Except String Tensor4 :=
  if paras.length < 5 then
    match paras.get? 0 with
    | none => Except.error ("IndexError")
    | some p0 =>
      if p0 = 0 then Except.error ("ZeroDivisionError")
      else
      let BP : ℤ := 0
      let K1 := rv.length
      let K2 := sv.length
      let STF : ℝ := 1000 / p0
      let SRF : ℝ := if M = 95 then 20 else 24
      let dM : ℕ := 0
      let dN : ℕ := 0
      let N1 := 2 ^ (Nat.clog 2 N)
      let M1 := 2 ^ (Nat.clog 2 M)
      let N2 := N1 * 2
      let M2 := M1 * 2
      let Y1 : ℕ → ℕ → ℂ := fun n m => dftN M2 (fun j => if j < M then y n j else 0) m
      let Y : ℕ → ℕ → ℂ := fun k m => dftN N2 (fun n => if n < N then Y1 n m else 0) k
      let HRup : ℕ → ℕ → ℂ := fun rdx k =>
        ((gen_cort_j (rv.getD rdx 0) N1 STF [(rdx : ℤ) + 1 + BP, (K1 : ℤ) + BP * 2]) ++
          List.replicate N1 0).getD k 0
      let HRdn : ℕ → ℕ → ℂ := fun rdx k =>
        let base : ℕ → ℂ := fun j => if j = 0 then HRup rdx 0 else star (HRup rdx (N2 - j))
        if k = N1 then ((Complex.abs (base (N1 + 1)) : ℝ) : ℂ) else base k
      let z10 : Bool → ℕ → ℕ → ℕ → ℂ := fun pos rdx n m =>
        idftN N2 (fun k => (if pos then HRup rdx k else HRdn rdx k) * Y k m) n
      let HS : ℕ → ℕ → ℝ := fun sdx m =>
        (gen_corf_j (sv.getD sdx 0) M1 SRF
          (PyKind.list [(sdx : ℤ) + BP + 1, (K2 : ℤ) + BP * 2])).getD m 0
      let z1 : Bool → ℕ → ℕ → ℕ → ℕ → ℂ := fun pos rdx sdx n m =>
        z10 pos rdx n m * ∏ s ∈ Finset.range (sdx + 1), ((HS s m : ℝ) : ℂ)
      let R1v : Bool → ℕ → ℕ → ℕ → ℕ → ℂ := fun pos rdx sdx n mm =>
        idftN M2 (fun m => if m < M1 then z1 pos rdx sdx n m else 0) mm
      Except.ok
        { dims := (K2, K1 * 2, N + 2 * dN, M + 2 * dM)
          entry := fun sdx j n m =>
            if sdx < K2 ∧ j < K1 * 2 ∧ n < N + 2 * dN ∧ m < M + 2 * dM then
              if j < K1 then R1v false j sdx n m else R1v true (j - K1) sdx n m
            else 0 }
  else Except.error ("NotImplementedError")

/-! General helper lemmas about the embedding. -/

theorem mapRange_getD {α : Type} (n : ℕ) (f : ℕ → α) (d : α) (i : ℕ) (h : i < n) :
    ((List.range n).map f).getD i d = f i := by
  rw [List.getD_eq_getElem _ _ (by simpa using h)]
  simp

theorem replicate_getD {α : Type} (n j : ℕ) (c : α) : (List.replicate n c).getD j c = c := by
  induction n generalizing j with
  | zero => simp
  | succ n ih =>
    cases j with
    | zero => simp [List.replicate]
    | succ j => simpa [List.replicate] using ih j

theorem getD_map_ofReal (l : List ℝ) (i : ℕ) :
    (l.map (fun r => (r : ℂ))).getD i 0 = ((l.getD i 0 : ℝ) : ℂ) := by
  induction l generalizing i with
  | nil => simp
  | cons a t ih =>
    cases i with
    | zero => simp
    | succ i => simpa using ih i

theorem dftN_eq_zero {N : ℕ} {x : ℕ → ℂ} (h : ∀ n, n < N → x n = 0) (k : ℕ) :
    dftN N x k = 0 := by
  unfold dftN
  refine Finset.sum_eq_zero fun n hn => ?_
  rw [h n (Finset.mem_range.mp hn), zero_mul]

theorem idftN_eq_zero {N : ℕ} {X : ℕ → ℂ} (h : ∀ k, k < N → X k = 0) (t : ℕ) :
    idftN N X t = 0 := by
  unfold idftN
  rw [Finset.sum_eq_zero fun k hk => by rw [h k (Finset.mem_range.mp hk), zero_mul]]
  simp

theorem exists_of_mem_zipWith {α β γ : Type} (f : α → β → γ) :
    ∀ (l1 : List α) (l2 : List β) (c : γ), c ∈ List.zipWith f l1 l2 →
      ∃ a ∈ l1, ∃ b ∈ l2, c = f a b := by
  intro l1
  induction l1 with
  | nil => intro l2 c hc; simp at hc
  | cons a t ih =>
    intro l2 c hc
    cases l2 with
    | nil => simp at hc
    | cons b t2 =>
      simp only [List.zipWith_cons_cons, List.mem_cons] at hc
      rcases hc with h | h
      · exact ⟨a, by simp, b, by simp, h⟩
      · rcases ih t2 c h with ⟨a1, ha1, b1, hb1, he⟩
        exact ⟨a1, by simp [ha1], b1, by simp [hb1], he⟩

theorem zipTail_getD (f : List ℂ → List ℂ → List ℂ) :
    ∀ (l : List (List ℂ)) (i : ℕ), i + 1 < l.length →
      (List.zipWith f l l.tail).getD i [] = f (l.getD i []) (l.getD (i + 1) []) := by
  intro l
  induction l with
  | nil => intro i h; simp at h
  | cons a t ih =>
    intro i h
    cases t with
    | nil => simp at h
    | cons b t2 =>
      cases i with
      | zero => rfl
      | succ i =>
        have hlen : i + 1 < (b :: t2).length := by
          simp only [List.length_cons] at h ⊢; omega
        simpa using ih i hlen

theorem cmax_zero_of_real {z : ℂ} (h : z.im = 0) :
    0 ≤ (cmax z 0).re ∧ (cmax z 0).im = 0 := by
  unfold cmax
  simp only [Complex.zero_re, Complex.zero_im]
  split_ifs with h1 h2 h3
  · exact ⟨le_of_lt h1, h⟩
  · simp
  · exact ⟨le_of_not_lt h2, h⟩
  · simp

theorem pyround_intCast (z : ℤ) : pyround ((z : ℤ) : ℚ) = z := by
  unfold pyround
  rw [Int.floor_intCast]
  norm_num

/-! Claim theorems. -/

/-- C10: for fc ≠ 0 and KIND ≠ 1, the closing H / sum(H) * sumH step of
gen_corf_j is the identity, so the returned scale filter is exactly the raw
envelope R1^2 * exp(1 - R1^2) with R1 = index/L * SRF/2 / abs(fc), and it
coincides with gen_corf_strf, which performs no normalization. -/
theorem gen_corf_j_eq_strf (fc : ℝ) (L : ℕ) (SRF : ℝ) (KIND : PyKind)
    (hfc : fc ≠ 0) (hk : kindEqOne KIND = false) :
    gen_corf_j fc L SRF KIND = gen_corf_strf fc L SRF ∧
    ∀ i, i < L → (gen_corf_j fc L SRF KIND).getD i 0 =
      ((i : ℝ) / (L : ℝ) * SRF / 2 / |fc|) ^ 2 *
        Real.exp (1 - ((i : ℝ) / (L : ℝ) * SRF / 2 / |fc|) ^ 2) := by
  set F : ℕ → ℝ := fun i =>
    ((i : ℝ) / (L : ℝ) * SRF / 2 / |fc|) ^ 2 *
      Real.exp (1 - ((i : ℝ) / (L : ℝ) * SRF / 2 / |fc|) ^ 2) with hF
  have hnn : ∀ i, 0 ≤ F i := fun i => mul_nonneg (sq_nonneg _) (Real.exp_pos _).le
  have hj : gen_corf_j fc L SRF KIND = (List.range L).map
      (fun i => F i / (∑ j ∈ Finset.range L, F j) * (∑ j ∈ Finset.range L, F j)) := by
    simp only [gen_corf_j, hk, Bool.false_eq_true, if_false]
  have hpt : ∀ i, i < L →
      F i / (∑ j ∈ Finset.range L, F j) * (∑ j ∈ Finset.range L, F j) = F i := by
    intro i hi
    by_cases hs : (∑ j ∈ Finset.range L, F j) = 0
    · rw [hs, div_zero, zero_mul]
      exact ((Finset.sum_eq_zero_iff_of_nonneg fun j _ => hnn j).mp hs i
        (Finset.mem_range.mpr hi)).symm
    · exact div_mul_cancel₀ (F i) hs
  have hstrf : gen_corf_strf fc L SRF = (List.range L).map F := by
    rw [hF]; unfold gen_corf_strf; rfl
  constructor
  · rw [hj, hstrf]
    exact List.map_congr_left fun i hi => hpt i (List.mem_range.mp hi)
  · intro i hi
    rw [hj, mapRange_getD _ _ _ _ hi]
    exact hpt i hi

/-- C10 witness: a concrete instance with fc = 1, L = 4, SRF = 24, integer
KIND = 2, where the hypotheses hold. -/
theorem gen_corf_j_eq_strf_witness :
    (1 : ℝ) ≠ 0 ∧ kindEqOne (PyKind.int 2) = false ∧
      gen_corf_j 1 4 24 (PyKind.int 2) = gen_corf_strf 1 4 24 :=
  ⟨by norm_num, rfl, (gen_corf_j_eq_strf 1 4 24 (PyKind.int 2) (by norm_num) rfl).1⟩

/-- C6 (amended): compression with a method tag outside the supported set
logistic, root, power, identity raises a fatal bare KeyError; the error
carries no mention of the unsupported option. -/
theorem compression_unknown_method (mag : List (List ℂ)) (fac : List ℝ) (method : String)
    (h : method ∉ (["logistic", "root", "power", "identity"] : List String)) :
    compression mag fac method = Except.error ("KeyError") := by
  have h1 : ¬ method = "logistic" := fun e => h (by simp [e])
  have h2 : ¬ method = "root" := fun e => h (by simp [e])
  have h3 : ¬ method = "power" := fun e => h (by simp [e])
  have h4 : ¬ method = "identity" := fun e => h (by simp [e])
  simp [compression, h1, h2, h3, h4]

/-- C6 witness: for the concrete unsupported tag "foo" the hypotheses hold
and the call errors. -/
theorem compression_unknown_method_witness :
    ("foo" : String) ∉ (["logistic", "root", "power", "identity"] : List String) ∧
      compression [[(1 : ℂ)]] [1] ("foo") = Except.error ("KeyError") :=
  ⟨by simp, compression_unknown_method [[(1 : ℂ)]] [1] ("foo") (by simp)⟩

/-- C6 counterexample: the error raised for the unsupported tag "unsupported"
is the bare string KeyError, which does not contain the unsupported option
name as a substring, refuting the claim that the failure names the option. -/
theorem compression_error_not_named :
    compression [[(1 : ℂ)]] [1] ("unsupported") = Except.error ("KeyError") ∧
      ¬ ("unsupported".toList <:+: "KeyError".toList) := by
  constructor
  · simp [compression]
  · intro hinf
    have hle := hinf.length_le
    revert hle
    decide

/-- C7: both cochlear filtering routines succeed exactly when the coefficient
lists have length 25: any other length fails the length-25 assert, and at
length exactly 25 the asserts pass and the failure branch is unreachable. -/
theorem cochlear_asserts (b a x : List ℂ) :
    (exceptOk (cochlear_filter_fft b a x) = true ↔ b.length = 25 ∧ a.length = 25) ∧
    (exceptOk (cochlear_filter b a x) = true ↔ b.length = 25 ∧ a.length = 25) := by
  constructor <;>
    (by_cases hb : b.length = 25 <;> by_cases ha : a.length = 25 <;>
      simp [cochlear_filter_fft, cochlear_filter, exceptOk, hb, ha])

/-- C5: in wav2aud_j the first-difference stage drops exactly one row, row i
of its output is row i minus row i+1 of the input, and on a real input
matrix every entry of the subsequent half-wave rectifier output is real and
nonnegative. -/
theorem lateral_diff_rectify (v : List (List ℂ)) (hrows : 2 ≤ v.length)
    (hreal : ∀ row ∈ v, ∀ z ∈ row, z.im = 0) :
    (lateralDiff v).length = v.length - 1 ∧
    (∀ i, i + 1 < v.length → (lateralDiff v).getD i [] =
      List.zipWith (fun p q => p - q) (v.getD i []) (v.getD (i + 1) [])) ∧
    (∀ row ∈ rectify (lateralDiff v), ∀ z ∈ row, 0 ≤ z.re ∧ z.im = 0) := by
  refine ⟨?_, ?_, ?_⟩
  · unfold lateralDiff
    rw [List.length_zipWith, List.length_tail]
    omega
  · intro i hi
    exact zipTail_getD _ v i hi
  · intro row hrow z hz
    unfold rectify at hrow
    rcases List.mem_map.mp hrow with ⟨row0, hrow0, rfl⟩
    rcases List.mem_map.mp hz with ⟨w, hw, rfl⟩
    unfold lateralDiff at hrow0
    rcases exists_of_mem_zipWith _ _ _ _ hrow0 with ⟨r1, hr1, r2, hr2, rfl⟩
    rcases exists_of_mem_zipWith _ _ _ _ hw with ⟨p, hp, q, hq, rfl⟩
    have hpim : p.im = 0 := hreal r1 hr1 p hp
    have hqim : q.im = 0 := hreal r2 (List.mem_of_mem_tail hr2) q hq
    exact cmax_zero_of_real (by simp [Complex.sub_im, hpim, hqim])

/-- C5 witness: a concrete real 2 x 1 matrix satisfying the hypotheses. -/
theorem lateral_diff_rectify_witness :
    2 ≤ ([[((3 : ℝ) : ℂ)], [((1 : ℝ) : ℂ)]] : List (List ℂ)).length ∧
      (lateralDiff [[((3 : ℝ) : ℂ)], [((1 : ℝ) : ℂ)]]).length =
        ([[((3 : ℝ) : ℂ)], [((1 : ℝ) : ℂ)]] : List (List ℂ)).length - 1 := by
  have h := lateral_diff_rectify [[((3 : ℝ) : ℂ)], [((1 : ℝ) : ℂ)]] (by simp)
    (by
      intro row hrow z hz
      simp only [List.mem_cons, List.not_mem_nil, or_false] at hrow
      rcases hrow with rfl | rfl <;>
        (simp only [List.mem_cons, List.not_mem_nil, or_false] at hz; subst hz; simp))
  exact ⟨by simp, h.1⟩

/-- C4: wav2aud_j computes the frame length L_frm = round(frmlen *
2^(4+octave_shift)), zero-pads the waveform to exactly N_frames * L_frm
samples, an integer multiple of L_frm, where N_frames = ceil(len(x)/L_frm),
which also equals ceil(padded_length/L_frm). -/
theorem wav2aud_framing (x : List ℝ) (frmlen : ℚ) (octave_shift : ℤ)
    (hL : 1 ≤ L_frm_of frmlen octave_shift) :
    L_frm_of frmlen octave_shift = pyround (frmlen * (2 : ℚ) ^ (4 + octave_shift)) ∧
    ((paddedSignal x frmlen octave_shift).length : ℤ) =
      nFrames x.length frmlen octave_shift * L_frm_of frmlen octave_shift ∧
    nFrames x.length frmlen octave_shift =
      ⌈(x.length : ℚ) / ((L_frm_of frmlen octave_shift : ℤ) : ℚ)⌉ ∧
    nFrames x.length frmlen octave_shift =
      ⌈((paddedSignal x frmlen octave_shift).length : ℚ) /
        ((L_frm_of frmlen octave_shift : ℤ) : ℚ)⌉ ∧
    L_frm_of frmlen octave_shift ∣ ((paddedSignal x frmlen octave_shift).length : ℤ) := by
  have hL0 : (0 : ℚ) < ((L_frm_of frmlen octave_shift : ℤ) : ℚ) := by
    have : (0 : ℤ) < L_frm_of frmlen octave_shift := by omega
    exact_mod_cast this
  have hceil : ((x.length : ℚ)) / ((L_frm_of frmlen octave_shift : ℤ) : ℚ) ≤
      ((nFrames x.length frmlen octave_shift : ℤ) : ℚ) := by
    unfold nFrames
    exact Int.le_ceil _
  have hle : (x.length : ℤ) ≤
      nFrames x.length frmlen octave_shift * L_frm_of frmlen octave_shift := by
    rw [div_le_iff hL0] at hceil
    exact_mod_cast hceil
  have hlen : ((paddedSignal x frmlen octave_shift).length : ℤ) =
      nFrames x.length frmlen octave_shift * L_frm_of frmlen octave_shift := by
    unfold paddedSignal
    rw [List.length_append, List.length_replicate]
    push_cast
    omega
  refine ⟨rfl, hlen, rfl, ?_, ?_⟩
  · have hq : ((paddedSignal x frmlen octave_shift).length : ℚ) =
        ((nFrames x.length frmlen octave_shift * L_frm_of frmlen octave_shift : ℤ) : ℚ) := by
      exact_mod_cast hlen
    rw [hq]
    push_cast
    rw [mul_div_cancel_right₀ _ (ne_of_gt hL0)]
    rw [Int.ceil_intCast]
  · rw [hlen]
    exact dvd_mul_left _ _

/-- C4 witness: a concrete three-sample waveform with frmlen = 1/2 ms and
octave shift 0, giving L_frm = 8. -/
theorem wav2aud_framing_witness :
    1 ≤ L_frm_of (1 / 2) 0 ∧
      ((paddedSignal [1, 2, 3] (1 / 2) 0).length : ℤ) =
        nFrames ([1, 2, 3] : List ℝ).length (1 / 2) 0 * L_frm_of (1 / 2) 0 := by
  have h8 : L_frm_of (1 / 2) 0 = 8 := by
    unfold L_frm_of
    rw [show (1 / 2 : ℚ) * (2 : ℚ) ^ ((4 : ℤ) + 0) = ((8 : ℤ) : ℚ) by norm_num,
      pyround_intCast]
  have h1 : 1 ≤ L_frm_of (1 / 2) 0 := by omega
  exact ⟨h1, (wav2aud_framing [1, 2, 3] (1 / 2) 0 h1).2.1⟩

/-- C3: with time_constant = 0, if L_frm = 1 the stage-5 (final) call of
wav2aud_j returns exactly the stage-4 (rectified) result, i.e. the
leaky-integration/downsampling stage is skipped and the rectified matrix
passes through unchanged; if L_frm ≠ 1 the invocation fails with an explicit
error instead of silently passing through. -/
theorem wav2aud_zero_tc (x : List ℝ) (frmlen : ℚ) (fac : List ℝ) (os : ℤ)
    (As Bs : List (List ℝ)) (ft cm : String) (fft : Bool) (ds : String) :
    (L_frm_of frmlen os = 1 →
      wav2aud_j x frmlen 0 fac os As Bs ft cm fft 5 ds =
        wav2aud_j x frmlen 0 fac os As Bs ft cm fft 4 ds) ∧
    (L_frm_of frmlen os ≠ 1 →
      exceptOk (wav2aud_j x frmlen 0 fac os As Bs ft cm fft 5 ds) = false) := by
  constructor
  · intro h
    by_cases h1 : As.map List.length ≠ Bs.map List.length
    · simp [wav2aud_j, h1]
    by_cases h2 : ft ≠ "p"
    · simp [wav2aud_j, h1, h2]
    by_cases h3 : nFrames x.length frmlen os * L_frm_of frmlen os - (x.length : ℤ) < 0
    · simp [wav2aud_j, h1, h2, h3]
    cases hf : filterStage As Bs fft (paddedSignal x frmlen os) with
    | error e => simp [wav2aud_j, h1, h2, h3, hf]
    | ok v1 =>
      cases hc : compression v1 fac cm with
      | error e => simp [wav2aud_j, h1, h2, h3, hf, hc]
      | ok v2 => simp [wav2aud_j, h1, h2, h3, hf, hc, h]
  · intro h
    by_cases h1 : As.map List.length ≠ Bs.map List.length
    · simp [wav2aud_j, h1, exceptOk]
    by_cases h2 : ft ≠ "p"
    · simp [wav2aud_j, h1, h2, exceptOk]
    by_cases h3 : nFrames x.length frmlen os * L_frm_of frmlen os - (x.length : ℤ) < 0
    · simp [wav2aud_j, h1, h2, h3, exceptOk]
    cases hf : filterStage As Bs fft (paddedSignal x frmlen os) with
    | error e => simp [wav2aud_j, h1, h2, h3, hf, exceptOk]
    | ok v1 =>
      cases hc : compression v1 fac cm with
      | error e => simp [wav2aud_j, h1, h2, h3, hf, hc, exceptOk]
      | ok v2 => simp [wav2aud_j, h1, h2, h3, hf, hc, h, exceptOk]

/-- C3 witness: frmlen = 1/16 ms at octave shift 0 gives L_frm = 1, and with
time_constant 0 the stage-5 call equals the stage-4 call. -/
theorem wav2aud_zero_tc_witness :
    L_frm_of (1 / 16) 0 = 1 ∧
      wav2aud_j [] (1 / 16) 0 [] 0 [] [] ("p") ("identity") true 5 ("default") =
        wav2aud_j [] (1 / 16) 0 [] 0 [] [] ("p") ("identity") true 4 ("default") := by
  have hL : L_frm_of (1 / 16) 0 = 1 := by
    unfold L_frm_of
    rw [show (1 / 16 : ℚ) * (2 : ℚ) ^ ((4 : ℤ) + 0) = ((1 : ℤ) : ℚ) by norm_num,
      pyround_intCast]
  exact ⟨hL,
    (wav2aud_zero_tc [] (1 / 16) [] 0 [] [] ("p") ("identity") true ("default")).1 hL⟩

theorem fftfreq_one : fftfreq 1 0 = 0 := by
  unfold fftfreq
  norm_num

theorem e_jw_one : e_jw 1 0 = 1 := by
  unfold e_jw
  rw [fftfreq_one]
  simp

theorem dftN_one (x : ℕ → ℂ) : dftN 1 x 0 = x 0 := by
  unfold dftN
  rw [Finset.sum_range_one]
  simp

theorem idftN_one (X : ℕ → ℂ) : idftN 1 X 0 = X 0 := by
  unfold idftN
  rw [Finset.sum_range_one]
  simp

theorem sum25_delta (c z : ℂ) :
    ∑ i ∈ Finset.range 25, ((c :: List.replicate 24 (0 : ℂ)).getD i 0) * z ^ i = c := by
  rw [Finset.sum_eq_single 0]
  · simp
  · intro i hi hne
    cases i with
    | zero => exact absurd rfl hne
    | succ i => rw [List.getD_cons_succ, replicate_getD, zero_mul]
  · intro h
    simp at h

theorem cfft_delta (a0 c : ℂ) :
    cochlear_filter_fft ((1 : ℂ) :: List.replicate 24 0) (a0 :: List.replicate 24 0) [c] =
      Except.ok [1 / a0 * c] := by
  unfold cochlear_filter_fft
  rw [if_neg (by simp), if_neg (by simp)]
  have hr1 : List.range 1 = [0] := rfl
  simp only [List.length_cons, List.length_nil, hr1, List.map_cons, List.map_nil,
    Nat.zero_add, idftN_one, dftN_one]
  unfold cochlearH
  rw [e_jw_one, sum25_delta, sum25_delta]
  simp

theorem crec_delta (a0 c : ℂ) :
    cochlear_filter ((1 : ℂ) :: List.replicate 24 0) (a0 :: List.replicate 24 0) [c] =
      Except.ok [c] := by
  unfold cochlear_filter
  rw [if_neg (by simp), if_neg (by simp)]
  have hr1 : List.range 1 = [0] := rfl
  simp only [List.length_cons, List.length_nil, List.length_replicate, List.tail_cons,
    hr1, List.foldl_cons, List.foldl_nil, Nat.zero_add]
  rw [if_pos (by norm_num)]
  have hma : (∑ x ∈ Finset.range 24,
      (List.replicate (1 + 24) (0 : ℂ)).getD x 0 *
        (List.replicate 24 (0 : ℂ)).reverse.getD x 0) = 0 :=
    Finset.sum_eq_zero fun j hj => by rw [replicate_getD, zero_mul]
  rw [hma]
  have hcv : convFull [c] ((1 : ℂ) :: List.replicate 24 0) 0 = c := by
    unfold convFull
    simp
  rw [hcv]
  have hds : ((List.replicate (1 + 24) (0 : ℂ)).set 24 (c - 0)).drop 24 = [c - 0] := rfl
  rw [hds, sub_zero]

/-- C9 (amended): cochlear_filter reads the denominator only through a[1:]
and never a[0]; equal tails give identical outputs, so it implements the
recursion normalized to a[0] = 1.  cochlear_filter_fft does depend on a[0]:
with b the unit impulse and x = [1] it agrees with the recursive output at
a[0] = 1 and differs from it at a[0] = 2 — although the two methods can also
coincide for a[0] ≠ 1 on degenerate signals such as the all-zero signal. -/
theorem cochlear_filter_ignores_a0 :
    (∀ (b a a2 x : List ℂ), a.length = 25 → a2.length = 25 → a.tail = a2.tail →
      cochlear_filter b a x = cochlear_filter b a2 x) ∧
    cochlear_filter ((1 : ℂ) :: List.replicate 24 0) ((1 : ℂ) :: List.replicate 24 0) [1] =
      Except.ok [(1 : ℂ)] ∧
    cochlear_filter ((1 : ℂ) :: List.replicate 24 0) ((2 : ℂ) :: List.replicate 24 0) [1] =
      Except.ok [(1 : ℂ)] ∧
    cochlear_filter_fft ((1 : ℂ) :: List.replicate 24 0) ((1 : ℂ) :: List.replicate 24 0) [1] =
      Except.ok [(1 : ℂ)] ∧
    cochlear_filter_fft ((1 : ℂ) :: List.replicate 24 0) ((2 : ℂ) :: List.replicate 24 0) [1] =
      Except.ok [(1 / 2 : ℂ)] ∧
    (1 / 2 : ℂ) ≠ 1 := by
  refine ⟨?_, ?_, ?_, ?_, ?_, ?_⟩
  · intro b a a2 x ha ha2 ht
    unfold cochlear_filter
    simp only [ht, ha, ha2]
  · rw [crec_delta]
  · rw [crec_delta]
  · rw [cfft_delta]; norm_num
  · rw [cfft_delta]; norm_num
  · norm_num

/-- C9 witness: two concrete length-25 denominators differing only in their
leading coefficient give identical recursive outputs. -/
theorem cochlear_filter_ignores_a0_witness :
    ((5 : ℂ) :: List.replicate 24 0).length = 25 ∧
    ((7 : ℂ) :: List.replicate 24 0).length = 25 ∧
    ((5 : ℂ) :: List.replicate 24 0).tail = ((7 : ℂ) :: List.replicate 24 0).tail ∧
      cochlear_filter [(1 : ℂ)] ((5 : ℂ) :: List.replicate 24 0) [(3 : ℂ)] =
        cochlear_filter [(1 : ℂ)] ((7 : ℂ) :: List.replicate 24 0) [(3 : ℂ)] :=
  ⟨by simp, by simp, rfl,
    cochlear_filter_ignores_a0.1 [(1 : ℂ)] _ _ [(3 : ℂ)] (by simp) (by simp) rfl⟩

/-- C9 counterexample: on the all-zero signal the fft method and the
recursive method agree even though a[0] = 2 ≠ 1, refuting the assertion that
the two methods can only agree when a[0] = 1. -/
theorem cochlear_methods_agree_bad_a0 :
    cochlear_filter_fft ((1 : ℂ) :: List.replicate 24 0)
        ((2 : ℂ) :: List.replicate 24 0) [0] =
      cochlear_filter ((1 : ℂ) :: List.replicate 24 0)
        ((2 : ℂ) :: List.replicate 24 0) [0] ∧
    ((2 : ℂ) :: List.replicate 24 0).getD 0 0 ≠ 1 := by
  constructor
  · rw [cfft_delta, crec_delta]
    norm_num
  · simp only [List.getD_cons_zero]
    norm_num

/-- C8: inverse_cochlear_filter returns a length-T real signal whose entry t
is the real part of the mean across channels of ifft(fft(channel) / H),
where H is the same transfer function cochlearH that the forward
frequency-response method cochlear_filter_fft evaluates at the T DFT bins,
and it is applied by division, not multiplication. -/
theorem inverse_cochlear_charn (Bs As : List (List ℝ)) (v : List (List ℂ)) (T : ℕ)
    (hv : v ≠ []) (hrows : ∀ row ∈ v, row.length = T)
    (hAs : As.length = v.length) (hBs : Bs.length = As.length) :
    (inverse_cochlear_filter Bs As v).length = T ∧
    ∀ t, t < T → (inverse_cochlear_filter Bs As v).getD t 0 =
      ((∑ ch ∈ Finset.range As.length,
          idftN T (fun k =>
            dftN T (fun n => (v.getD ch []).getD n 0) k /
              cochlearH ((Bs.getD ch []).map (fun r => (r : ℂ)))
                ((As.getD ch []).map (fun r => (r : ℂ))) T k) t) /
        (As.length : ℂ)).re := by
  have hT : (v.headD []).length = T := by
    cases v with
    | nil => exact absurd rfl hv
    | cons r tl => exact hrows r (List.mem_cons_self r tl)
  constructor
  · simp only [inverse_cochlear_filter, hT]
    simp
  · intro t ht
    simp only [inverse_cochlear_filter, hT]
    rw [mapRange_getD _ _ _ _ ht]
    simp only [List.length_map, List.length_range]
    congr 2
    refine Finset.sum_congr rfl fun ch hch => ?_
    have hch2 : ch < As.length := Finset.mem_range.mp hch
    rw [mapRange_getD _ _ _ _ hch2, mapRange_getD _ _ _ _ ht]
    unfold cochlearH
    simp only [getD_map_ofReal]

/-- C8 witness: a single-channel, single-sample cochleagram with unit
coefficient rows satisfies the hypotheses. -/
theorem inverse_cochlear_charn_witness :
    ([[(0 : ℂ)]] : List (List ℂ)) ≠ [] ∧
      (inverse_cochlear_filter [[1]] [[1]] [[(0 : ℂ)]]).length = 1 :=
  ⟨by simp,
    (inverse_cochlear_charn [[1]] [[1]] [[(0 : ℂ)]] 1 (by simp)
      (by intro row h; simp only [List.mem_cons, List.not_mem_nil, or_false] at h;
          subst h; rfl) rfl rfl).1⟩

/-- C2 (amended): aud2cor_j applied to an all-zero spectrogram of shape
(N, M) with N, M ≥ 1, any rate vector rv of length K1, any scale vector sv
of length K2, and any parameter list paras with 1 ≤ len(paras) < 5 and
paras[0] ≠ 0, returns the all-zero complex STRF tensor of shape
(K2, K1*2, N, M). -/
theorem aud2cor_zero (N M : ℕ) (y : ℕ → ℕ → ℂ) (paras rv sv : List ℝ)
    (hp1 : 1 ≤ paras.length) (hp5 : paras.length < 5) (hp0 : paras.getD 0 0 ≠ 0)
    (hN : 1 ≤ N) (hM : 1 ≤ M)
    (hy : ∀ n m, n < N → m < M → y n m = 0) :
    ∃ t : Tensor4, aud2cor_j y N M paras rv sv = Except.ok t ∧
      t.dims = (sv.length, rv.length * 2, N, M) ∧
      ∀ i j k l, t.entry i j k l = 0 := by
  have hY : ∀ (N2 M2 k m : ℕ),
      dftN N2 (fun n => if n < N then
        dftN M2 (fun j => if j < M then y n j else 0) m else 0) k = 0 := by
    intro N2 M2 k m
    refine dftN_eq_zero (fun n hn => ?_) k
    split
    · next hnN =>
      refine dftN_eq_zero (fun j hj => ?_) m
      split
      · next hjM => exact hy n j hnN hjM
      · rfl
    · rfl
  cases paras with
  | nil => simp at hp1
  | cons p0 ps =>
    have hp0v : ¬ (p0 = 0) := by simpa using hp0
    unfold aud2cor_j
    rw [if_pos hp5]
    simp only [List.get?_cons_zero]
    rw [if_neg hp0v]
    refine ⟨_, rfl, by norm_num, ?_⟩
    intro i j k l
    dsimp only
    split
    · split
      · refine idftN_eq_zero (fun m hm => ?_) _
        split
        · refine mul_eq_zero.mpr (Or.inl ?_)
          refine idftN_eq_zero (fun kk hkk => ?_) _
          exact mul_eq_zero.mpr (Or.inr (hY _ _ kk m))
        · rfl
      · refine idftN_eq_zero (fun m hm => ?_) _
        split
        · refine mul_eq_zero.mpr (Or.inl ?_)
          refine idftN_eq_zero (fun kk hkk => ?_) _
          exact mul_eq_zero.mpr (Or.inr (hY _ _ kk m))
        · rfl
    · rfl

/-- C2 counterexample: the claim quantifies over every paras of length < 5,
but at the line STF = 1000/paras[0] the empty parameter list makes aud2cor_j
fail with an IndexError and paras = [0] makes it fail with a
ZeroDivisionError, rather than returning an all-zero tensor. -/
theorem aud2cor_empty_paras :
    aud2cor_j (fun _ _ => 0) 1 1 [] [1] [1] = Except.error ("IndexError") ∧
    aud2cor_j (fun _ _ => 0) 1 1 [0] [1] [1] = Except.error ("ZeroDivisionError") := by
  constructor
  · rfl
  · unfold aud2cor_j
    rw [if_pos (by norm_num)]
    simp only [List.get?_cons_zero]
    exact if_pos trivial

/-- C2 witness: a concrete 1 x 1 all-zero spectrogram with paras = [5],
rv = [2], sv = [3]. -/
theorem aud2cor_zero_witness :
    (1 ≤ ([(5 : ℝ)] : List ℝ).length ∧ ([(5 : ℝ)] : List ℝ).length < 5 ∧
      ([(5 : ℝ)] : List ℝ).getD 0 0 ≠ 0) ∧
      ∃ t : Tensor4, aud2cor_j (fun _ _ => 0) 1 1 [5] [2] [3] = Except.ok t ∧
        t.dims = (([3] : List ℝ).length, ([2] : List ℝ).length * 2, 1, 1) ∧
        ∀ i j k l, t.entry i j k l = 0 :=
  ⟨⟨by simp, by simp, by norm_num⟩,
    aud2cor_zero 1 1 (fun _ _ => 0) [5] [2] [3] (by simp) (by simp) (by norm_num)
      le_rfl le_rfl (fun _ _ _ _ => rfl)⟩

end
